import Mathlib

/-!
Verification of the animals-web-generator repository
(`src/animals_web_generator.py` and `src/data_fetcher.py`).

The Python sources are shallowly embedded: every pure transformation
becomes a Lean function over `String` / `List Char`, Python dictionaries
become association lists, JSON values become the inductive `JValue`,
fallible code returns `Except String`, and the effectful edges of the
program (console input, the HTTP request, the filesystem) are passed in
explicitly as oracle arguments, so that each function stays a total,
executable definition whose branches mirror the Python line by line.

Python's `str.lower`, `str.upper` and `str.title` are modelled on the
ASCII letter range (`A`–`Z`, `a`–`z`); characters outside that range are
passed through unchanged. All case conversion in the program is applied
either to the fixed sentinel `"N/A"`, to API field values, or to the
already-ASCII output of `unidecode`, so this is the range the program
exercises.
-/

/-- Characters removed by Python `str.strip()`: the codepoints for which
CPython's `Py_UNICODE_ISSPACE` holds (tab through carriage return, the
information separators, space, next line, and the Unicode space
separators). -/
def isPySpace (c : Char) : Bool :=
  (9 ≤ c.toNat && c.toNat ≤ 13) || (28 ≤ c.toNat && c.toNat ≤ 31) ||
  c.toNat == 32 || c.toNat == 0x85 || c.toNat == 0xA0 || c.toNat == 0x1680 ||
  (0x2000 ≤ c.toNat && c.toNat ≤ 0x200A) || c.toNat == 0x2028 ||
  c.toNat == 0x2029 || c.toNat == 0x202F || c.toNat == 0x205F || c.toNat == 0x3000

/-- Python `str.strip()` on the character list of a string: drop whitespace
from the front, then from the back. -/
def pyStripL (l : List Char) : List Char :=
  (((l.dropWhile isPySpace).reverse).dropWhile isPySpace).reverse

/-- Python `str.strip()`. -/
def pyStrip (s : String) : String :=
  ⟨pyStripL s.data⟩

/-- Python `str.lower()` on one character (ASCII range, see the module
comment): `A`–`Z` maps to `a`–`z`, everything else is unchanged. This is
Lean's `Char.toLower`, whose definition is exactly that mapping. -/
def pyCharLower (c : Char) : Char :=
  Char.toLower c

/-- Python `str.upper()` on one character (ASCII range): `a`–`z` maps to
`A`–`Z`, everything else unchanged (Lean's `Char.toUpper`). -/
def pyCharUpper (c : Char) : Char :=
  Char.toUpper c

/-- Python `str.lower()`. -/
def pyLower (s : String) : String :=
  ⟨s.data.map pyCharLower⟩

/-- A character is cased for the purposes of `str.title()` word boundaries
(ASCII letters, matching the case-conversion model). -/
def isCasedChar (c : Char) : Bool :=
  (65 ≤ c.toNat && c.toNat ≤ 90) || (97 ≤ c.toNat && c.toNat ≤ 122)

/-- Scanner behind Python `str.title()`: the flag records whether the
previous character was cased. The first cased character of each cased run
is uppercased, the following ones lowercased, uncased characters pass
through and reset the flag. -/
def pyTitleGo : Bool → List Char → List Char
  | _, [] => []
  | prevCased, c :: cs =>
    if isCasedChar c then
      (if prevCased then pyCharLower c else pyCharUpper c) :: pyTitleGo true cs
    else
      c :: pyTitleGo false cs

/-- Python `str.title()`. -/
def pyTitle (s : String) : String :=
  ⟨pyTitleGo false s.data⟩

/-- Scanner behind Python `str.replace(pat, repl)` for a non-empty `pat`:
at skip state `k + 1` the character belongs to an already-matched pattern
occurrence and is dropped; at skip state `0` a match of `pat` emits `repl`
and enters skip state `pat.length - 1`, and a non-match emits the
character. Structural recursion on the character list keeps the definition
kernel-evaluable. -/
def pyReplaceGo (pat repl : List Char) : Nat → List Char → List Char
  | 0, [] => []
  | 0, c :: cs =>
    if pat.isPrefixOf (c :: cs) then
      repl ++ pyReplaceGo pat repl (pat.length - 1) cs
    else
      c :: pyReplaceGo pat repl 0 cs
  | _ + 1, [] => []
  | skip + 1, _ :: cs => pyReplaceGo pat repl skip cs

/-- Python `str.replace(pat, repl)` on character lists: every
non-overlapping occurrence of `pat`, found left to right, is replaced by
`repl`. An empty pattern (which Python treats as matching between every
pair of characters, and which this program never uses) is treated as
matching nowhere. -/
def pyReplaceL (pat repl l : List Char) : List Char :=
  if pat = [] then l else pyReplaceGo pat repl 0 l

/-- Python `str.replace(pat, repl)`. -/
def pyReplace (s pat repl : String) : String :=
  ⟨pyReplaceL pat.data repl.data s.data⟩

/-- Scanner behind splitting on a non-empty separator (`str.split(pat)`
semantics restricted to what is needed to specify `replace`): same match
discipline as `pyReplaceGo`, collecting the text between occurrences. -/
def pySplitGo (pat : List Char) : Nat → List Char → List (List Char)
  | 0, [] => [[]]
  | 0, c :: cs =>
    if pat.isPrefixOf (c :: cs) then
      [] :: pySplitGo pat (pat.length - 1) cs
    else
      match pySplitGo pat 0 cs with
      | [] => [[c]]
      | p :: ps => (c :: p) :: ps
  | _ + 1, [] => [[]]
  | skip + 1, _ :: cs => pySplitGo pat skip cs

/-- The pieces of `l` between the left-to-right non-overlapping occurrences
of the non-empty pattern `pat` (an empty pattern yields `[l]`). -/
def pySplitL (pat l : List Char) : List (List Char) :=
  if pat = [] then [l] else pySplitGo pat 0 l

/-- Number of left-to-right non-overlapping occurrences of `pat.data` in
`s.data`: one less than the number of split pieces. -/
def countOcc (pat s : String) : Nat :=
  (pySplitL pat.data s.data).length - 1

/-- A JSON value as the Animals API returns it and as the Python code
manipulates it: `jnull` is Python `None`, the other constructors are
strings, arrays and objects (Python dicts, modelled as association lists
whose lookup takes the first matching key, as a dict has no duplicate
keys). Numbers do not occur in the fields this program reads. -/
inductive JValue where
  | jnull : JValue
  | jstr : String → JValue
  | jarr : List JValue → JValue
  | jobj : List (String × JValue) → JValue

/-- Python truthiness (`if value:`) for the modelled values: `None`, the
empty string, the empty list and the empty dict are falsy. -/
def pyTruthy : JValue → Bool
  | .jnull => false
  | .jstr s => !s.isEmpty
  | .jarr xs => !xs.isEmpty
  | .jobj fs => !fs.isEmpty

mutual

/-- Python `repr()` of a modelled value, used by `str()` on containers:
`None`, quoted strings, bracketed lists and braced dicts. String quoting
is the plain single-quote form (no claim exercises `str()` on a container,
all API fields the program formats being strings or absent). -/
def pyRepr : JValue → String
  | .jnull => "None"
  | .jstr s => "'" ++ s ++ "'"
  | .jarr xs => "[" ++ pyReprList xs ++ "]"
  | .jobj fs => "\x7b" ++ pyReprObj fs ++ "\x7d"

/-- Comma-separated `repr` of list elements. -/
def pyReprList : List JValue → String
  | [] => ""
  | [x] => pyRepr x
  | x :: xs => pyRepr x ++ ", " ++ pyReprList xs

/-- Comma-separated `repr` of dict entries. -/
def pyReprObj : List (String × JValue) → String
  | [] => ""
  | [(k, v)] => "'" ++ k ++ "': " ++ pyRepr v
  | (k, v) :: fs => "'" ++ k ++ "': " ++ pyRepr v ++ ", " ++ pyReprObj fs

end

/-- Python `str()` of a modelled value: a string is itself, `None` prints
as `None`, containers print as their `repr`. -/
def pyStr : JValue → String
  | .jstr s => s
  | .jnull => "None"
  | v => pyRepr v

/-- Constant `DEFAULT_NA_VALUE` of `animals_web_generator.py`: the
"not available" sentinel. -/
def DEFAULT_NA_VALUE : String := "N/A"

/-- Constant `HTML_PLACEHOLDER_TEXT` of `animals_web_generator.py`: the
placeholder token the template must contain. -/
def HTML_PLACEHOLDER_TEXT : String := "__REPLACE_ANIMALS_INFO__"

/-- Constant `BASE_URL`, shared by both modules. -/
def BASE_URL : String := "https://api.api-ninjas.com/v1/"

/-- Function `format_value` of `animals_web_generator.py`. A string whose
lowercasing differs from the lowercased sentinel is title-cased and the
possessive fix-up `replace("’S", "’s")` is applied; any other string (one
that lowercases to `n/a`) falls through to `str(value_str)`, which returns
it unchanged; `None` becomes the sentinel; a non-string value is
stringified. -/
def format_value (value_str : JValue) : String :=
  match value_str with
  | .jstr s =>
    if pyLower s ≠ pyLower DEFAULT_NA_VALUE then
      pyReplace (pyTitle s) "’S" "’s"
    else
      pyStr (.jstr s)
  | .jnull => DEFAULT_NA_VALUE
  | v => pyStr v

/-- Function `extract_animal_data` of `animals_web_generator.py`. The
argument is the raw animal dict. `dict.get(key, default)` is
`(List.lookup key d).getD default`; `dict.get(key)` defaults to `None`.
The guard `if locations_list and isinstance(locations_list, list)` holds
exactly for a non-empty array, in which case `locations_list[0]` is its
head. `characteristics.get(...)` raises `AttributeError` when the value
under `"characteristics"` is present but not a dict; the `Except` error
branch models that exception. The result is the four-entry dict built by
the `return` statement, in source order. -/
def extract_animal_data (animal_data : List (String × JValue)) :
    Except String (List (String × String)) :=
  let animal_name := (List.lookup "name" animal_data).getD (.jstr DEFAULT_NA_VALUE)
  let locations_list := (List.lookup "locations" animal_data).getD .jnull
  let animal_location :=
    match locations_list with
    | .jarr (x :: _) => x
    | _ => JValue.jstr DEFAULT_NA_VALUE
  let characteristics := (List.lookup "characteristics" animal_data).getD (.jobj [])
  match characteristics with
  | .jobj m =>
    let animal_diet := (List.lookup "diet" m).getD (.jstr DEFAULT_NA_VALUE)
    let animal_type := (List.lookup "type" m).getD (.jstr DEFAULT_NA_VALUE)
    .ok [("name", format_value animal_name),
         ("diet", format_value animal_diet),
         ("location", format_value animal_location),
         ("type", format_value animal_type)]
  | _ => .error "AttributeError"

/-- Function `process_animals_data` of `animals_web_generator.py`: `None`
becomes the empty list, otherwise each raw record is shaped in order (an
exception from `extract_animal_data` propagates, which is the `Except`
bind). -/
def process_animals_data (data : Option (List (List (String × JValue)))) :
    Except String (List (List (String × String))) :=
  match data with
  | none => .ok []
  | some animals => animals.mapM extract_animal_data

/-- Python `animal_obj[key]` on a string dict: the value, or a `KeyError`
when the key is absent. -/
def pyGetItem (d : List (String × String)) (key : String) : Except String String :=
  match List.lookup key d with
  | some v => .ok v
  | none => .error ("KeyError: " ++ key)

/-- Function `create_animal_html_card` of `animals_web_generator.py`: the
f-string card with the four field accesses in source order. -/
def create_animal_html_card (animal_obj : List (String × String)) :
    Except String String := do
  let name ← pyGetItem animal_obj "name"
  let diet ← pyGetItem animal_obj "diet"
  let location ← pyGetItem animal_obj "location"
  let ty ← pyGetItem animal_obj "type"
  return "<li class='cards__item'>" ++
    "<div class='card__title'>" ++ name ++ "</div>" ++
    "<p class='card__text'>" ++
    "<strong>Diet:</strong> " ++ diet ++ "<br/>" ++
    "<strong>Location:</strong> " ++ location ++ "<br/>" ++
    "<strong>Type:</strong> " ++ ty ++ "<br/>" ++
    "</p>" ++
    "</li>"

/-- Function `generate_animals_html_content` of `animals_web_generator.py`:
shape the data; an empty shaped list yields the styled "does not exist"
heading with the title-cased query, otherwise the cards are joined with a
blank line (`"\n\n".join`). -/
def generate_animals_html_content
    (data : Option (List (List (String × JValue)))) (animal_name : String) :
    Except String String := do
  let animals_list ← process_animals_data data
  if animals_list.length = 0 then
    return "<h2 style=\"text-align: center; font-size: 30pt; font-weight: normal;\">" ++
      "The animal \"" ++ pyTitle animal_name ++ "\" does not exist.</h2>"
  else
    let animal_html_cards ← animals_list.mapM create_animal_html_card
    return String.intercalate "\n\n" animal_html_cards

/-- Function `create_final_html` of `animals_web_generator.py`. The result
of `load_html_template()` is passed in as `html_template : Option String`
(`None` when the template file could not be read). With no template the
function prints an error and returns `""`; otherwise the animals content
is generated and substituted for the placeholder when the template
contains it (`in` is `List.IsInfix` on the character data, `str.replace`
is `pyReplace`); a template without the placeholder yields `""`. -/
def create_final_html (html_template : Option String)
    (data : Option (List (List (String × JValue)))) (animal_name : String) :
    Except String String :=
  match html_template with
  | none => .ok ""
  | some tmpl => do
    let animals_html_content ← generate_animals_html_content data animal_name
    if HTML_PLACEHOLDER_TEXT.data <:+: tmpl.data then
      return pyReplace tmpl HTML_PLACEHOLDER_TEXT animals_html_content
    else
      return ""

/-- Function `save_html_to_file` of `animals_web_generator.py`. The
filesystem outcome of the `open`/`write` block is the oracle `w` (an
`IOError` is its error case). The result pairs the returned boolean with
the content handed to `handle.write` (`none` when no write is attempted):
empty content is rejected before any write, otherwise the write is
attempted and the boolean reports its success; no exception escapes. -/
def save_html_to_file (html_content : String) (w : Except String Unit) :
    Bool × Option String :=
  if html_content = "" then
    (false, none)
  else
    match w with
    | .ok _ => (true, some html_content)
    | .error _ => (false, some html_content)

/-- Character class of the validation regex
`r'^[a-zA-ZÀ-ÿĀ-žǍ-ǰȀ-ȳḀ-ỿ -]*$'` in `get_input`: the seven codepoint
ranges `a`–`z`, `A`–`Z`, U+00C0–U+00FF, U+0100–U+017E, U+01CD–U+01F0,
U+0200–U+0233, U+1E00–U+1EFF, plus the space and the hyphen. -/
def allowedChar (c : Char) : Bool :=
  (0x61 ≤ c.toNat && c.toNat ≤ 0x7A) || (0x41 ≤ c.toNat && c.toNat ≤ 0x5A) ||
  (0xC0 ≤ c.toNat && c.toNat ≤ 0xFF) || (0x100 ≤ c.toNat && c.toNat ≤ 0x17E) ||
  (0x1CD ≤ c.toNat && c.toNat ≤ 0x1F0) || (0x200 ≤ c.toNat && c.toNat ≤ 0x233) ||
  (0x1E00 ≤ c.toNat && c.toNat ≤ 0x1EFF) || c.toNat == 0x20 || c.toNat == 0x2D

/-- Function `get_input` of `animals_web_generator.py`, with the console
modelled as the list of strings the successive `input()` calls return.
Each candidate is stripped; an empty result reprompts (`continue`), a
result matched by the anchored regex (every character in the class, which
is what `re.match(r'^[...]*$', raw)` tests on a non-empty string) is
returned, anything else reprompts. `none` means the input list was
exhausted without an accepted value (the Python loop would still be
waiting for input). -/
def get_input (inputs : List String) : Option String :=
  match inputs with
  | [] => none
  | line :: rest =>
    let raw_input := pyStrip line
    if raw_input = "" then get_input rest
    else if raw_input.data.all allowedChar then some raw_input
    else get_input rest

/-- Constant `REQUEST_TIMEOUT_SECONDS`, shared by both modules. -/
def REQUEST_TIMEOUT_SECONDS : Nat := 10

/-- An HTTP request as `requests.get` receives it in `fetch_api_data`. -/
structure ApiRequest where
  url : String
  params : List (String × String)
  headers : List (String × String)
  timeout : Nat

/-- Python `params[key] = value` on a dict modelled as an association
list: replace the first binding of the key, or append a new one. -/
def pyDictSet (d : List (String × String)) (k v : String) :
    List (String × String) :=
  match d with
  | [] => [(k, v)]
  | (k0, v0) :: rest =>
    if k0 = k then (k, v) :: rest else (k0, v0) :: pyDictSet rest k v

/-- Function `fetch_api_data` of `data_fetcher.py` (the copy in
`animals_web_generator.py` is line for line the same logic). `KEY` is the
`API_NINJA_KEY` environment value (`none` when absent); `if not KEY`
is true for an absent or empty key and returns `None` before any request
is built. Otherwise the request is assembled exactly as in the source and
handed to the network oracle `net`, whose error case is the caught
`requests.exceptions.RequestException` (connection failure, timeout, the
`raise_for_status` error, or a body that fails to parse). The second
component lists the requests actually issued. -/
def fetch_api_data (KEY : Option String) (endpoint animal_name : String)
    (params : Option (List (String × String)))
    (net : ApiRequest → Except String JValue) :
    Option JValue × List ApiRequest :=
  let params0 := params.getD []
  match KEY with
  | none => (none, [])
  | some k =>
    if k = "" then (none, [])
    else
      let headers := [("X-Api-Key", k)]
      let params1 := pyDictSet params0 "name" animal_name
      let api_url := BASE_URL ++ endpoint
      let req : ApiRequest := ⟨api_url, params1, headers, REQUEST_TIMEOUT_SECONDS⟩
      match net req with
      | .ok body => (some body, [req])
      | .error _ => (none, [req])

/-- Lookup in the transliteration table of the `unidecode` package: the
replacement string for a codepoint, or `""` for an untabulated codepoint
(which `unidecode` drops). -/
def tblLookup : List (Nat × String) → Nat → String
  | [], _ => ""
  | (k, v) :: rest, n => if k = n then v else tblLookup rest n

/-- The Latin-1 Supplement rows of the `unidecode` transliteration table
(the block U+00C0–U+00FF: the accented Latin letters with `Æ`, `Ç`, `Ð`,
`Þ`, `ß` and the two signs `×`, `÷`). Codepoints outside this block and
above ASCII are untabulated in the model and transliterate to `""`; the
claims about `process_input` do not depend on which rows are present,
only on every replacement being ASCII. -/
def latin1Table : List (Nat × String) :=
  [(0xC0, "A"), (0xC1, "A"), (0xC2, "A"), (0xC3, "A"), (0xC4, "A"), (0xC5, "A"),
   (0xC6, "AE"), (0xC7, "C"),
   (0xC8, "E"), (0xC9, "E"), (0xCA, "E"), (0xCB, "E"),
   (0xCC, "I"), (0xCD, "I"), (0xCE, "I"), (0xCF, "I"),
   (0xD0, "D"), (0xD1, "N"),
   (0xD2, "O"), (0xD3, "O"), (0xD4, "O"), (0xD5, "O"), (0xD6, "O"),
   (0xD7, "x"), (0xD8, "O"),
   (0xD9, "U"), (0xDA, "U"), (0xDB, "U"), (0xDC, "U"),
   (0xDD, "Y"), (0xDE, "Th"), (0xDF, "ss"),
   (0xE0, "a"), (0xE1, "a"), (0xE2, "a"), (0xE3, "a"), (0xE4, "a"), (0xE5, "a"),
   (0xE6, "ae"), (0xE7, "c"),
   (0xE8, "e"), (0xE9, "e"), (0xEA, "e"), (0xEB, "e"),
   (0xEC, "i"), (0xED, "i"), (0xEE, "i"), (0xEF, "i"),
   (0xF0, "d"), (0xF1, "n"),
   (0xF2, "o"), (0xF3, "o"), (0xF4, "o"), (0xF5, "o"), (0xF6, "o"),
   (0xF7, "/"), (0xF8, "o"),
   (0xF9, "u"), (0xFA, "u"), (0xFB, "u"), (0xFC, "u"),
   (0xFD, "y"), (0xFE, "th"), (0xFF, "y")]

/-- One character through `unidecode`: codepoints below 0x80 pass through
unchanged (the package short-circuits on ASCII before any table lookup),
every other codepoint is replaced by its table row. -/
def unidecodeChar (c : Char) : String :=
  if c.toNat < 0x80 then String.singleton c else tblLookup latin1Table c.toNat

/-- The `unidecode` transliteration on a character list. -/
def unidecodeL (l : List Char) : List Char :=
  (l.map (fun c => (unidecodeChar c).data)).flatten

/-- The `unidecode` transliteration of a string. -/
def unidecode (s : String) : String :=
  ⟨unidecodeL s.data⟩

/-- Function `process_input` of `animals_web_generator.py`:
`unidecode(raw_input).strip().lower()`. -/
def process_input (raw_input : String) : String :=
  pyLower (pyStrip (unidecode raw_input))

/-- A raw animal dict is shaped as the spec's `RawRecord` data model
requires: `name`, when present, is a string; `locations`, when present, is
an array of strings; `characteristics`, when present, is an object whose
`diet` and `type`, when present, are strings. -/
def RawRecordWF (d : List (String × JValue)) : Bool :=
  (match List.lookup "name" d with
   | none => true
   | some (.jstr _) => true
   | some _ => false) &&
  (match List.lookup "locations" d with
   | none => true
   | some (.jarr xs) => xs.all (fun v => match v with | .jstr _ => true | _ => false)
   | some _ => false) &&
  (match List.lookup "characteristics" d with
   | none => true
   | some (.jobj m) =>
     (match List.lookup "diet" m with
      | none => true
      | some (.jstr _) => true
      | some _ => false) &&
     (match List.lookup "type" m with
      | none => true
      | some (.jstr _) => true
      | some _ => false)
   | some _ => false)

theorem toNat_charOfNat (n : Nat) (h : n < 0xd800) : (Char.ofNat n).toNat = n := by
  unfold Char.ofNat
  rw [dif_pos (Or.inl h)]
  rfl

theorem pyCharLower_toNat (c : Char) :
    (pyCharLower c).toNat =
      if 65 ≤ c.toNat ∧ c.toNat ≤ 90 then c.toNat + 32 else c.toNat := by
  unfold pyCharLower Char.toLower
  rcases Decidable.em (65 ≤ c.toNat ∧ c.toNat ≤ 90) with h | h
  · rw [if_pos ⟨h.1, h.2⟩, if_pos h, toNat_charOfNat _ (by omega)]
  · rw [if_neg (by tauto), if_neg h]

theorem pyCharLower_eq_self (c : Char) (h : ¬ (65 ≤ c.toNat ∧ c.toNat ≤ 90)) :
    pyCharLower c = c := by
  unfold pyCharLower Char.toLower
  rw [if_neg (by tauto)]

theorem pyCharLower_idem (c : Char) : pyCharLower (pyCharLower c) = pyCharLower c := by
  have h := pyCharLower_toNat c
  apply pyCharLower_eq_self
  rcases Decidable.em (65 ≤ c.toNat ∧ c.toNat ≤ 90) with hc | hc
  · rw [if_pos hc] at h
    rw [h]
    omega
  · rw [if_neg hc] at h
    rw [h]
    exact hc

theorem pyCharLower_ascii (c : Char) (h : c.toNat < 0x80) :
    (pyCharLower c).toNat < 0x80 := by
  have hl := pyCharLower_toNat c
  rcases Decidable.em (65 ≤ c.toNat ∧ c.toNat ≤ 90) with hc | hc
  · rw [if_pos hc] at hl
    omega
  · rw [if_neg hc] at hl
    omega

theorem isPySpace_true_iff (c : Char) : isPySpace c = true ↔
    ((9 ≤ c.toNat ∧ c.toNat ≤ 13) ∨ (28 ≤ c.toNat ∧ c.toNat ≤ 31) ∨ c.toNat = 32 ∨
     c.toNat = 0x85 ∨ c.toNat = 0xA0 ∨ c.toNat = 0x1680 ∨
     (0x2000 ≤ c.toNat ∧ c.toNat ≤ 0x200A) ∨ c.toNat = 0x2028 ∨ c.toNat = 0x2029 ∨
     c.toNat = 0x202F ∨ c.toNat = 0x205F ∨ c.toNat = 0x3000) := by
  simp [isPySpace]
  tauto

theorem isPySpace_pyCharLower (c : Char) : isPySpace (pyCharLower c) = isPySpace c := by
  have hl := pyCharLower_toNat c
  rw [Bool.eq_iff_iff, isPySpace_true_iff, isPySpace_true_iff, hl]
  rcases Decidable.em (65 ≤ c.toNat ∧ c.toNat ≤ 90) with hc | hc
  · rw [if_pos hc]
    omega
  · rw [if_neg hc]

theorem dropWhile_dropWhile {α : Type} (p : α → Bool) (l : List α) :
    (l.dropWhile p).dropWhile p = l.dropWhile p := by
  induction l with
  | nil => rfl
  | cons c cs ih =>
    by_cases h : p c
    · simp [List.dropWhile_cons, h, ih]
    · simp [List.dropWhile_cons, h]

theorem head?_dropWhile {α : Type} (p : α → Bool) (l : List α) {c : α}
    (h : (l.dropWhile p).head? = some c) : p c = false := by
  induction l with
  | nil => simp [List.dropWhile] at h
  | cons a as ih =>
    by_cases ha : p a
    · rw [List.dropWhile_cons, if_pos ha] at h
      exact ih h
    · rw [List.dropWhile_cons, if_neg ha] at h
      simp at h
      subst h
      simpa using ha

theorem dropWhile_eq_self_of_head? {α : Type} (p : α → Bool) (l : List α)
    (h : ∀ c, l.head? = some c → p c = false) : l.dropWhile p = l := by
  cases l with
  | nil => rfl
  | cons a as =>
    rw [List.dropWhile_cons, if_neg]
    simp [h a rfl]

theorem backStrip_prefix (p : Char → Bool) (l : List Char) :
    (((l.reverse).dropWhile p).reverse) <+: l := by
  have hs : (l.reverse).dropWhile p <:+ l.reverse := List.dropWhile_suffix p
  have := List.reverse_prefix.mpr hs
  simpa using this

theorem pyStripL_idem (l : List Char) : pyStripL (pyStripL l) = pyStripL l := by
  unfold pyStripL
  set A := l.dropWhile isPySpace with hA
  set S := (A.reverse.dropWhile isPySpace).reverse with hS
  have hpre : S <+: A := backStrip_prefix isPySpace A
  have hfront : S.dropWhile isPySpace = S := by
    apply dropWhile_eq_self_of_head?
    intro c hc
    obtain ⟨t, ht⟩ := hpre
    cases hSc : S with
    | nil => simp [hSc] at hc
    | cons s ss =>
      rw [hSc] at hc
      simp only [List.head?_cons, Option.some.injEq] at hc
      have hAc : A = s :: (ss ++ t) := by
        rw [← ht, hSc]
        simp
      have hh : (A.dropWhile isPySpace).head? = some s := by
        rw [hA, dropWhile_dropWhile, ← hA, hAc]
        rfl
      rw [← hc]
      exact head?_dropWhile isPySpace _ hh
  rw [hfront, List.reverse_reverse, dropWhile_dropWhile]

theorem pyStripL_map_lower (l : List Char) :
    pyStripL (l.map pyCharLower) = (pyStripL l).map pyCharLower := by
  have hco : (isPySpace ∘ pyCharLower) = isPySpace := by
    funext c
    exact isPySpace_pyCharLower c
  unfold pyStripL
  rw [List.dropWhile_map, hco, ← List.map_reverse, List.dropWhile_map, hco,
    ← List.map_reverse]

theorem mem_pyStripL {c : Char} {l : List Char} (h : c ∈ pyStripL l) : c ∈ l := by
  unfold pyStripL at h
  rw [List.mem_reverse] at h
  have h1 := (List.dropWhile_sublist isPySpace).subset h
  rw [List.mem_reverse] at h1
  exact (List.dropWhile_sublist isPySpace).subset h1

theorem map_lower_idem (l : List Char) :
    (l.map pyCharLower).map pyCharLower = l.map pyCharLower := by
  rw [List.map_map]
  apply List.map_congr_left
  intro c _
  exact pyCharLower_idem c

theorem tblLookup_ascii (tbl : List (Nat × String))
    (h : ∀ p ∈ tbl, ∀ d ∈ p.2.data, d.toNat < 0x80) (n : Nat) :
    ∀ d ∈ (tblLookup tbl n).data, d.toNat < 0x80 := by
  induction tbl with
  | nil =>
    intro d hd
    simp [tblLookup] at hd
  | cons p rest ih =>
    obtain ⟨k, v⟩ := p
    intro d hd
    unfold tblLookup at hd
    by_cases hk : k = n
    · rw [if_pos hk] at hd
      exact h (k, v) (by simp) d hd
    · rw [if_neg hk] at hd
      exact ih (fun q hq => h q (by simp [hq])) d hd

theorem latin1Table_ascii :
    ∀ p ∈ latin1Table, ∀ d ∈ p.2.data, d.toNat < 0x80 := by
  decide

theorem unidecodeChar_ascii (c : Char) :
    ∀ d ∈ (unidecodeChar c).data, d.toNat < 0x80 := by
  intro d hd
  unfold unidecodeChar at hd
  by_cases h : c.toNat < 0x80
  · rw [if_pos h] at hd
    have hsing : (String.singleton c).data = [c] := rfl
    rw [hsing, List.mem_singleton] at hd
    subst hd
    exact h
  · rw [if_neg h] at hd
    exact tblLookup_ascii latin1Table latin1Table_ascii c.toNat d hd

theorem unidecodeL_ascii (l : List Char) : ∀ c ∈ unidecodeL l, c.toNat < 0x80 := by
  intro c hc
  unfold unidecodeL at hc
  rw [List.mem_flatten] at hc
  obtain ⟨piece, hpiece, hcp⟩ := hc
  rw [List.mem_map] at hpiece
  obtain ⟨d, _, rfl⟩ := hpiece
  exact unidecodeChar_ascii d c hcp

theorem unidecodeL_of_ascii (l : List Char) (h : ∀ c ∈ l, c.toNat < 0x80) :
    unidecodeL l = l := by
  induction l with
  | nil => rfl
  | cons c cs ih =>
    have hc : c.toNat < 0x80 := h c (by simp)
    have : unidecodeChar c = String.singleton c := by
      unfold unidecodeChar
      rw [if_pos hc]
    unfold unidecodeL
    simp only [List.map_cons, List.flatten_cons, this]
    have := ih (fun d hd => h d (by simp [hd]))
    unfold unidecodeL at this
    rw [this]
    rfl

theorem process_input_data (s : String) :
    (process_input s).data = (pyStripL (unidecodeL s.data)).map pyCharLower := rfl

/-- C8: query normalization is idempotent — `process_input` applied to its
own output returns it unchanged, so an already-normalized
(ASCII-transliterated, trimmed, lowercased) string normalizes to itself. -/
theorem process_input_idempotent (s : String) :
    process_input (process_input s) = process_input s := by
  have hw : ∀ c ∈ (pyStripL (unidecodeL s.data)).map pyCharLower, c.toNat < 0x80 := by
    intro c hc
    rw [List.mem_map] at hc
    obtain ⟨d, hd, rfl⟩ := hc
    exact pyCharLower_ascii d (unidecodeL_ascii _ d (mem_pyStripL hd))
  apply String.ext
  rw [process_input_data (process_input s), process_input_data s,
    unidecodeL_of_ascii _ hw, pyStripL_map_lower, pyStripL_idem, map_lower_idem]

theorem pyReplaceGo_skip (pat repl : List Char) (l : List Char) :
    ∀ n : Nat, pyReplaceGo pat repl n l = pyReplaceGo pat repl 0 (l.drop n) := by
  induction l with
  | nil =>
    intro n
    cases n <;> rfl
  | cons c cs ih =>
    intro n
    cases n with
    | zero => rfl
    | succ k =>
      simp only [pyReplaceGo, List.drop_succ_cons]
      exact ih k

theorem pySplitGo_skip (pat : List Char) (l : List Char) :
    ∀ n : Nat, pySplitGo pat n l = pySplitGo pat 0 (l.drop n) := by
  induction l with
  | nil =>
    intro n
    cases n <;> rfl
  | cons c cs ih =>
    intro n
    cases n with
    | zero => rfl
    | succ k =>
      simp only [pySplitGo, List.drop_succ_cons]
      exact ih k

theorem drop_pred_cons (pat : List Char) (hne : pat ≠ []) (c : Char) (cs : List Char) :
    cs.drop (pat.length - 1) = (c :: cs).drop pat.length := by
  cases hpl : pat.length with
  | zero => exact absurd (List.length_eq_zero.mp hpl) hne
  | succ k => simp

theorem pyReplaceGo_zero_cons_pos (pat repl : List Char) (c : Char) (cs : List Char)
    (hne : pat ≠ []) (hp : pat.isPrefixOf (c :: cs)) :
    pyReplaceGo pat repl 0 (c :: cs) =
      repl ++ pyReplaceGo pat repl 0 ((c :: cs).drop pat.length) := by
  simp only [pyReplaceGo, if_pos hp]
  rw [pyReplaceGo_skip, drop_pred_cons pat hne]

theorem pyReplaceGo_zero_cons_neg (pat repl : List Char) (c : Char) (cs : List Char)
    (hp : ¬ pat.isPrefixOf (c :: cs)) :
    pyReplaceGo pat repl 0 (c :: cs) = c :: pyReplaceGo pat repl 0 cs := by
  simp only [pyReplaceGo, if_neg hp]

theorem pySplitGo_zero_cons_pos (pat : List Char) (c : Char) (cs : List Char)
    (hne : pat ≠ []) (hp : pat.isPrefixOf (c :: cs)) :
    pySplitGo pat 0 (c :: cs) = [] :: pySplitGo pat 0 ((c :: cs).drop pat.length) := by
  simp only [pySplitGo, if_pos hp]
  rw [pySplitGo_skip, drop_pred_cons pat hne]

theorem pySplitGo_zero_cons_neg (pat : List Char) (c : Char) (cs : List Char)
    (hp : ¬ pat.isPrefixOf (c :: cs)) :
    pySplitGo pat 0 (c :: cs) =
      match pySplitGo pat 0 cs with
      | [] => [[c]]
      | p :: ps => (c :: p) :: ps := by
  simp only [pySplitGo, if_neg hp]

theorem pySplitGo_ne_nil (pat : List Char) (l : List Char) :
    ∀ n : Nat, pySplitGo pat n l ≠ [] := by
  induction l with
  | nil =>
    intro n
    cases n <;> simp [pySplitGo]
  | cons c cs ih =>
    intro n
    cases n with
    | zero =>
      by_cases hp : pat.isPrefixOf (c :: cs)
      · simp [pySplitGo, hp]
      · simp only [pySplitGo, if_neg hp]
        cases hcs : pySplitGo pat 0 cs <;> simp
    | succ k =>
      simp only [pySplitGo]
      exact ih k

theorem intercalate_cons_cons {α : Type} (sep x y : List α) (ys : List (List α)) :
    List.intercalate sep (x :: y :: ys) = x ++ sep ++ List.intercalate sep (y :: ys) := by
  simp [List.intercalate, List.intersperse]

theorem intercalate_single {α : Type} (sep x : List α) :
    List.intercalate sep [x] = x := by
  simp [List.intercalate, List.intersperse]

theorem intercalate_cons_head {α : Type} (sep : List α) (c : α) (p : List α)
    (ps : List (List α)) :
    List.intercalate sep ((c :: p) :: ps) = c :: List.intercalate sep (p :: ps) := by
  cases ps with
  | nil => rw [intercalate_single, intercalate_single]
  | cons q qs =>
    rw [intercalate_cons_cons, intercalate_cons_cons]
    simp

theorem prefix_take_drop (pat l : List Char) (hp : pat.isPrefixOf l) :
    l = pat ++ l.drop pat.length := by
  have hpre : pat <+: l := List.isPrefixOf_iff_prefix.mp hp
  have ht : pat = l.take pat.length := List.prefix_iff_eq_take.mp hpre
  conv_lhs => rw [← List.take_append_drop pat.length l]
  rw [← ht]

theorem pySplitGo_join (pat : List Char) (hne : pat ≠ []) :
    ∀ l : List Char, List.intercalate pat (pySplitGo pat 0 l) = l := by
  have key : ∀ n : Nat, ∀ l : List Char, l.length ≤ n →
      List.intercalate pat (pySplitGo pat 0 l) = l := by
    intro n
    induction n with
    | zero =>
      intro l hl
      rw [List.length_eq_zero.mp (Nat.le_zero.mp hl)]
      simp [pySplitGo, List.intercalate]
    | succ n ih =>
      intro l hl
      cases l with
      | nil => simp [pySplitGo, List.intercalate]
      | cons c cs =>
        by_cases hp : pat.isPrefixOf (c :: cs)
        · rw [pySplitGo_zero_cons_pos pat c cs hne hp]
          have hlen : ((c :: cs).drop pat.length).length ≤ n := by
            have hplen : 1 ≤ pat.length := by
              cases pat with
              | nil => exact absurd rfl hne
              | cons a as => simp
            simp only [List.length_drop, List.length_cons] at *
            omega
          cases hrest : pySplitGo pat 0 ((c :: cs).drop pat.length) with
          | nil => exact absurd hrest (pySplitGo_ne_nil pat _ 0)
          | cons p ps =>
            rw [intercalate_cons_cons]
            have := ih _ hlen
            rw [hrest] at this
            rw [this]
            simp only [List.nil_append]
            exact (prefix_take_drop pat (c :: cs) hp).symm
        · rw [pySplitGo_zero_cons_neg pat c cs hp]
          have hlen : cs.length ≤ n := by
            simp only [List.length_cons] at hl
            omega
          cases hcs : pySplitGo pat 0 cs with
          | nil => exact absurd hcs (pySplitGo_ne_nil pat cs 0)
          | cons p ps =>
            simp only
            rw [intercalate_cons_head]
            have := ih cs hlen
            rw [hcs] at this
            rw [this]
  intro l
  exact key l.length l (le_refl _)

theorem pyReplaceGo_eq_intercalate (pat repl : List Char) (hne : pat ≠ []) :
    ∀ l : List Char,
      pyReplaceGo pat repl 0 l = List.intercalate repl (pySplitGo pat 0 l) := by
  have key : ∀ n : Nat, ∀ l : List Char, l.length ≤ n →
      pyReplaceGo pat repl 0 l = List.intercalate repl (pySplitGo pat 0 l) := by
    intro n
    induction n with
    | zero =>
      intro l hl
      rw [List.length_eq_zero.mp (Nat.le_zero.mp hl)]
      simp [pySplitGo, pyReplaceGo, List.intercalate]
    | succ n ih =>
      intro l hl
      cases l with
      | nil => simp [pySplitGo, pyReplaceGo, List.intercalate]
      | cons c cs =>
        by_cases hp : pat.isPrefixOf (c :: cs)
        · rw [pyReplaceGo_zero_cons_pos pat repl c cs hne hp,
            pySplitGo_zero_cons_pos pat c cs hne hp]
          have hlen : ((c :: cs).drop pat.length).length ≤ n := by
            have hplen : 1 ≤ pat.length := by
              cases pat with
              | nil => exact absurd rfl hne
              | cons a as => simp
            simp only [List.length_drop, List.length_cons] at *
            omega
          cases hrest : pySplitGo pat 0 ((c :: cs).drop pat.length) with
          | nil => exact absurd hrest (pySplitGo_ne_nil pat _ 0)
          | cons p ps =>
            rw [intercalate_cons_cons]
            have := ih _ hlen
            rw [hrest] at this
            rw [this]
            simp
        · rw [pyReplaceGo_zero_cons_neg pat repl c cs hp,
            pySplitGo_zero_cons_neg pat c cs hp]
          have hlen : cs.length ≤ n := by
            simp only [List.length_cons] at hl
            omega
          cases hcs : pySplitGo pat 0 cs with
          | nil => exact absurd hcs (pySplitGo_ne_nil pat cs 0)
          | cons p ps =>
            simp only
            rw [intercalate_cons_head]
            have := ih cs hlen
            rw [hcs] at this
            rw [this]
  intro l
  exact key l.length l (le_refl _)

theorem pySplitGo_head_prefix (pat : List Char) (hne : pat ≠ []) (cs p : List Char)
    (ps : List (List Char)) (h : pySplitGo pat 0 cs = p :: ps) : p <+: cs := by
  have hj := pySplitGo_join pat hne cs
  rw [h] at hj
  cases ps with
  | nil =>
    rw [intercalate_single] at hj
    exact hj ▸ List.prefix_refl p
  | cons q qs =>
    rw [intercalate_cons_cons] at hj
    refine ⟨pat ++ List.intercalate pat (q :: qs), ?_⟩
    rw [← hj]
    simp [List.append_assoc]

theorem pySplitGo_not_infix (pat : List Char) (hne : pat ≠ []) :
    ∀ l : List Char, ∀ p ∈ pySplitGo pat 0 l, ¬ pat <:+: p := by
  have key : ∀ n : Nat, ∀ l : List Char, l.length ≤ n →
      ∀ p ∈ pySplitGo pat 0 l, ¬ pat <:+: p := by
    intro n
    induction n with
    | zero =>
      intro l hl p hp
      rw [List.length_eq_zero.mp (Nat.le_zero.mp hl)] at hp
      simp only [pySplitGo, List.mem_singleton] at hp
      subst hp
      intro hinf
      exact hne (List.infix_nil.mp hinf)
    | succ n ih =>
      intro l hl p hp
      cases l with
      | nil =>
        simp only [pySplitGo, List.mem_singleton] at hp
        subst hp
        intro hinf
        exact hne (List.infix_nil.mp hinf)
      | cons c cs =>
        by_cases hpre : pat.isPrefixOf (c :: cs)
        · rw [pySplitGo_zero_cons_pos pat c cs hne hpre] at hp
          have hlen : ((c :: cs).drop pat.length).length ≤ n := by
            have hplen : 1 ≤ pat.length := by
              cases pat with
              | nil => exact absurd rfl hne
              | cons a as => simp
            simp only [List.length_drop, List.length_cons] at *
            omega
          rcases List.mem_cons.mp hp with rfl | hmem
          · intro hinf
            exact hne (List.infix_nil.mp hinf)
          · exact ih _ hlen p hmem
        · rw [pySplitGo_zero_cons_neg pat c cs hpre] at hp
          have hlen : cs.length ≤ n := by
            simp only [List.length_cons] at hl
            omega
          cases hcs : pySplitGo pat 0 cs with
          | nil => exact absurd hcs (pySplitGo_ne_nil pat cs 0)
          | cons p0 ps =>
            rw [hcs] at hp
            simp only at hp
            rcases List.mem_cons.mp hp with rfl | hmem
            · intro hinf
              rcases List.infix_cons_iff.mp hinf with hpfx | hinf0
              · have hp0 : p0 <+: cs := pySplitGo_head_prefix pat hne cs p0 ps hcs
                have : pat <+: c :: cs :=
                  hpfx.trans (List.cons_prefix_cons.mpr ⟨rfl, hp0⟩)
                exact hpre (List.isPrefixOf_iff_prefix.mpr this)
              · exact ih cs hlen p0 (by rw [hcs]; exact List.mem_cons_self p0 ps) hinf0
            · exact ih cs hlen p (by rw [hcs]; exact List.mem_cons_of_mem p0 hmem)
  intro l
  exact key l.length l (le_refl _)

theorem pySplitGo_two_le (pat : List Char) (hne : pat ≠ []) :
    ∀ l : List Char, pat <:+: l → 2 ≤ (pySplitGo pat 0 l).length := by
  have key : ∀ n : Nat, ∀ l : List Char, l.length ≤ n →
      pat <:+: l → 2 ≤ (pySplitGo pat 0 l).length := by
    intro n
    induction n with
    | zero =>
      intro l hl hinf
      rw [List.length_eq_zero.mp (Nat.le_zero.mp hl)] at hinf
      exact absurd (List.infix_nil.mp hinf) hne
    | succ n ih =>
      intro l hl hinf
      cases l with
      | nil => exact absurd (List.infix_nil.mp hinf) hne
      | cons c cs =>
        by_cases hpre : pat.isPrefixOf (c :: cs)
        · rw [pySplitGo_zero_cons_pos pat c cs hne hpre]
          cases hrest : pySplitGo pat 0 ((c :: cs).drop pat.length) with
          | nil => exact absurd hrest (pySplitGo_ne_nil pat _ 0)
          | cons p ps => simp
        · have hinf0 : pat <:+: cs := by
            rcases List.infix_cons_iff.mp hinf with hpfx | h0
            · exact absurd (List.isPrefixOf_iff_prefix.mpr hpfx) hpre
            · exact h0
          have hlen : cs.length ≤ n := by
            simp only [List.length_cons] at hl
            omega
          rw [pySplitGo_zero_cons_neg pat c cs hpre]
          cases hcs : pySplitGo pat 0 cs with
          | nil => exact absurd hcs (pySplitGo_ne_nil pat cs 0)
          | cons p0 ps =>
            have := ih cs hlen hinf0
            rw [hcs] at this
            simpa using this
  intro l
  exact key l.length l (le_refl _)

theorem format_value_na : format_value (.jstr DEFAULT_NA_VALUE) = DEFAULT_NA_VALUE := by
  simp only [format_value]
  rw [if_neg (by simp)]
  rfl

/-- C10: the sentinel comparison in `format_value` is case-insensitive —
every string whose (ASCII) lowercasing is `n/a` is returned unchanged, not
only the exact sentinel `N/A`; every other string is title-cased with the
`’S` → `’s` fix-up; `None` maps to the sentinel. -/
theorem format_value_sentinel_case_insensitive :
    (∀ s : String, pyLower s = "n/a" → format_value (.jstr s) = s) ∧
    (∀ s : String, pyLower s ≠ "n/a" →
      format_value (.jstr s) = pyReplace (pyTitle s) "’S" "’s") ∧
    format_value .jnull = DEFAULT_NA_VALUE := by
  have hna : pyLower DEFAULT_NA_VALUE = "n/a" := rfl
  refine ⟨?_, ?_, rfl⟩
  · intro s h
    simp only [format_value]
    rw [if_neg (by simp [h, hna])]
    rfl
  · intro s h
    simp only [format_value]
    rw [if_pos (by rw [hna]; exact h)]

theorem format_value_sentinel_case_insensitive_witness :
    pyLower "N/a" = "n/a" ∧ format_value (.jstr "N/a") = "N/a" :=
  ⟨by decide, format_value_sentinel_case_insensitive.1 "N/a" (by decide)⟩

theorem extract_ok_of_characteristics (d : List (String × JValue))
    (m : List (String × JValue))
    (hm : (List.lookup "characteristics" d).getD (.jobj []) = .jobj m) :
    extract_animal_data d = .ok
      [("name", format_value ((List.lookup "name" d).getD (.jstr DEFAULT_NA_VALUE))),
       ("diet", format_value ((List.lookup "diet" m).getD (.jstr DEFAULT_NA_VALUE))),
       ("location", format_value
         (match (List.lookup "locations" d).getD .jnull with
          | .jarr (x :: _) => x
          | _ => JValue.jstr DEFAULT_NA_VALUE)),
       ("type", format_value ((List.lookup "type" m).getD (.jstr DEFAULT_NA_VALUE)))] := by
  simp only [extract_animal_data]
  rw [hm]

theorem wf_characteristics (d : List (String × JValue)) (h : RawRecordWF d = true) :
    ∃ m, (List.lookup "characteristics" d).getD (.jobj []) = .jobj m := by
  unfold RawRecordWF at h
  simp only [Bool.and_eq_true] at h
  rcases hc : List.lookup "characteristics" d with _ | v
  · exact ⟨[], rfl⟩
  · rw [hc] at h
    rcases v with _ | s | xs | m
    · exact absurd h.2 (by simp)
    · exact absurd h.2 (by simp)
    · exact absurd h.2 (by simp)
    · exact ⟨m, rfl⟩

/-- C1: shaping is total on well-formed raw records — for every raw animal
dict matching the spec's `RawRecord` data model (each of the three nested
fields optional), `extract_animal_data` raises no exception and returns a
dict with exactly the four keys `name`, `diet`, `location`, `type` (whose
values are strings by the result type). -/
theorem extract_animal_data_total (d : List (String × JValue))
    (h : RawRecordWF d = true) :
    ∃ r, extract_animal_data d = .ok r ∧
      r.map Prod.fst = ["name", "diet", "location", "type"] := by
  obtain ⟨m, hm⟩ := wf_characteristics d h
  exact ⟨_, extract_ok_of_characteristics d m hm, rfl⟩

theorem extract_animal_data_total_witness :
    RawRecordWF [] = true ∧
    ∃ r, extract_animal_data [] = .ok r ∧
      r.map Prod.fst = ["name", "diet", "location", "type"] :=
  ⟨rfl, extract_animal_data_total [] rfl⟩

/-- C7: sentinel values are never title-cased — a raw record in which
`name`, `locations`, `characteristics.diet` and `characteristics.type` are
all absent shapes to the dict whose four values are all the verbatim
sentinel `N/A`. -/
theorem extract_all_absent_sentinel (d : List (String × JValue))
    (hname : List.lookup "name" d = none)
    (hloc : List.lookup "locations" d = none)
    (hchar : List.lookup "characteristics" d = none ∨
      ∃ m, List.lookup "characteristics" d = some (.jobj m) ∧
        List.lookup "diet" m = none ∧ List.lookup "type" m = none) :
    extract_animal_data d = .ok
      [("name", DEFAULT_NA_VALUE), ("diet", DEFAULT_NA_VALUE),
       ("location", DEFAULT_NA_VALUE), ("type", DEFAULT_NA_VALUE)] := by
  rcases hchar with hc | ⟨m, hc, hdiet, htype⟩
  · rw [extract_ok_of_characteristics d [] (by rw [hc]; rfl)]
    rw [hname, hloc]
    rfl
  · rw [extract_ok_of_characteristics d m (by rw [hc]; rfl)]
    rw [hname, hloc, hdiet, htype]
    rfl

theorem extract_all_absent_sentinel_witness :
    List.lookup "name" ([] : List (String × JValue)) = none ∧
    List.lookup "locations" ([] : List (String × JValue)) = none ∧
    extract_animal_data [] = .ok
      [("name", DEFAULT_NA_VALUE), ("diet", DEFAULT_NA_VALUE),
       ("location", DEFAULT_NA_VALUE), ("type", DEFAULT_NA_VALUE)] :=
  ⟨rfl, rfl, extract_all_absent_sentinel [] rfl rfl (Or.inl rfl)⟩

theorem mapM_ok_of_forall {α β : Type} (f : α → Except String β) :
    ∀ l : List α, (∀ x ∈ l, ∃ y, f x = .ok y) →
      ∃ ys, l.mapM f = .ok ys ∧ List.Forall₂ (fun x y => f x = .ok y) l ys := by
  intro l
  induction l with
  | nil => exact fun _ => ⟨[], rfl, List.Forall₂.nil⟩
  | cons x xs ih =>
    intro h
    obtain ⟨y, hy⟩ := h x (by simp)
    obtain ⟨ys, hys, hfa⟩ := ih (fun z hz => h z (by simp [hz]))
    refine ⟨y :: ys, ?_, List.Forall₂.cons hy hfa⟩
    rw [List.mapM_cons, hy, hys]
    rfl

theorem forall2_mem_right {α β : Type} {R : α → β → Prop} :
    ∀ {l : List α} {ys : List β}, List.Forall₂ R l ys → ∀ y ∈ ys, ∃ x ∈ l, R x y := by
  intro l ys h
  induction h with
  | nil => simp
  | @cons a b l' ys' hR _ ih =>
    intro y hy
    rcases List.mem_cons.mp hy with rfl | hy'
    · exact ⟨a, by simp, hR⟩
    · obtain ⟨x, hx, hRx⟩ := ih y hy'
      exact ⟨x, by simp [hx], hRx⟩

theorem forall2_strengthen {α β : Type} {R S : α → β → Prop} (P : α → Prop) :
    ∀ {l : List α} {ys : List β}, List.Forall₂ R l ys → (∀ x ∈ l, P x) →
      (∀ x y, P x → R x y → S x y) → List.Forall₂ S l ys := by
  intro l ys h
  induction h with
  | nil => exact fun _ _ => List.Forall₂.nil
  | @cons a b l' ys' hR _ ih =>
    intro hP himp
    exact List.Forall₂.cons (himp a b (hP a (by simp)) hR)
      (ih (fun x hx => hP x (by simp [hx])) himp)

/-- The card markup of `create_animal_html_card` with the four field values
spliced into their slots, used to state what the card contains. -/
def cardShell (n dt loc ty : String) : String :=
  "<li class='cards__item'>" ++
    "<div class='card__title'>" ++ n ++ "</div>" ++
    "<p class='card__text'>" ++
    "<strong>Diet:</strong> " ++ dt ++ "<br/>" ++
    "<strong>Location:</strong> " ++ loc ++ "<br/>" ++
    "<strong>Type:</strong> " ++ ty ++ "<br/>" ++
    "</p>" ++
    "</li>"

theorem create_animal_html_card_eq (n dt loc ty : String) :
    create_animal_html_card
      [("name", n), ("diet", dt), ("location", loc), ("type", ty)] =
      .ok (cardShell n dt loc ty) := rfl

set_option maxRecDepth 4096 in
theorem cardShell_value_infix (n dt loc ty k v : String)
    (hkv : List.lookup k [("name", n), ("diet", dt), ("location", loc), ("type", ty)] =
      some v) :
    v.data <:+: (cardShell n dt loc ty).data := by
  simp only [List.lookup] at hkv
  split at hkv
  · cases hkv
    refine ⟨("<li class='cards__item'>" ++ "<div class='card__title'>").data,
      ("</div>" ++ "<p class='card__text'>" ++ "<strong>Diet:</strong> " ++ dt ++ "<br/>" ++
       "<strong>Location:</strong> " ++ loc ++ "<br/>" ++ "<strong>Type:</strong> " ++ ty ++
       "<br/>" ++ "</p>" ++ "</li>").data, ?_⟩
    simp [cardShell, String.data_append, List.append_assoc]
  · split at hkv
    · cases hkv
      refine ⟨("<li class='cards__item'>" ++ "<div class='card__title'>" ++ n ++ "</div>" ++
        "<p class='card__text'>" ++ "<strong>Diet:</strong> ").data,
        ("<br/>" ++ "<strong>Location:</strong> " ++ loc ++ "<br/>" ++
         "<strong>Type:</strong> " ++ ty ++ "<br/>" ++ "</p>" ++ "</li>").data, ?_⟩
      simp [cardShell, String.data_append, List.append_assoc]
    · split at hkv
      · cases hkv
        refine ⟨("<li class='cards__item'>" ++ "<div class='card__title'>" ++ n ++ "</div>" ++
          "<p class='card__text'>" ++ "<strong>Diet:</strong> " ++ dt ++ "<br/>" ++
          "<strong>Location:</strong> ").data,
          ("<br/>" ++ "<strong>Type:</strong> " ++ ty ++ "<br/>" ++ "</p>" ++ "</li>").data, ?_⟩
        simp [cardShell, String.data_append, List.append_assoc]
      · split at hkv
        · cases hkv
          refine ⟨("<li class='cards__item'>" ++ "<div class='card__title'>" ++ n ++ "</div>" ++
            "<p class='card__text'>" ++ "<strong>Diet:</strong> " ++ dt ++ "<br/>" ++
            "<strong>Location:</strong> " ++ loc ++ "<br/>" ++
            "<strong>Type:</strong> ").data,
            ("<br/>" ++ "</p>" ++ "</li>").data, ?_⟩
          simp [cardShell, String.data_append, List.append_assoc]
        · cases hkv

theorem shaped_of_wf (l : List (List (String × JValue)))
    (hwf : ∀ r ∈ l, RawRecordWF r = true) :
    ∃ shaped, process_animals_data (some l) = .ok shaped ∧
      List.Forall₂ (fun r rec => extract_animal_data r = .ok rec) l shaped ∧
      ∀ rec ∈ shaped, ∃ n dt loc ty,
        rec = [("name", n), ("diet", dt), ("location", loc), ("type", ty)] := by
  have hex : ∀ r ∈ l, ∃ rec, extract_animal_data r = .ok rec := by
    intro r hr
    obtain ⟨m, hm⟩ := wf_characteristics r (hwf r hr)
    exact ⟨_, extract_ok_of_characteristics r m hm⟩
  obtain ⟨shaped, hs, hfa⟩ := mapM_ok_of_forall extract_animal_data l hex
  refine ⟨shaped, hs, hfa, ?_⟩
  intro rec hrec
  obtain ⟨r, hr, hR⟩ := forall2_mem_right hfa rec hrec
  obtain ⟨m, hm⟩ := wf_characteristics r (hwf r hr)
  have := extract_ok_of_characteristics r m hm
  rw [this] at hR
  cases hR
  exact ⟨_, _, _, _, rfl⟩

theorem cards_of_shaped (shaped : List (List (String × String)))
    (hshape : ∀ rec ∈ shaped, ∃ n dt loc ty,
      rec = [("name", n), ("diet", dt), ("location", loc), ("type", ty)]) :
    ∃ cards, shaped.mapM create_animal_html_card = .ok cards ∧
      List.Forall₂ (fun d c => create_animal_html_card d = .ok c ∧
        ∀ k v, List.lookup k d = some v → v.data <:+: c.data) shaped cards := by
  have hex : ∀ d ∈ shaped, ∃ c, create_animal_html_card d = .ok c := by
    intro d hd
    obtain ⟨n, dt, loc, ty, rfl⟩ := hshape d hd
    exact ⟨_, create_animal_html_card_eq n dt loc ty⟩
  obtain ⟨cards, hc, hfa⟩ := mapM_ok_of_forall create_animal_html_card shaped hex
  refine ⟨cards, hc, ?_⟩
  refine forall2_strengthen (fun d => ∃ n dt loc ty,
    d = [("name", n), ("diet", dt), ("location", loc), ("type", ty)]) hfa hshape ?_
  intro d c hP hR
  obtain ⟨n, dt, loc, ty, rfl⟩ := hP
  rw [create_animal_html_card_eq] at hR
  cases hR
  exact ⟨create_animal_html_card_eq n dt loc ty, fun k v hkv =>
    cardShell_value_infix n dt loc ty k v hkv⟩

/-- The "does not exist" heading fragment of
`generate_animals_html_content` with the title-cased query spliced in. -/
def notExistShell (animal_name : String) : String :=
  "<h2 style=\"text-align: center; font-size: 30pt; font-weight: normal;\">" ++
    "The animal \"" ++ pyTitle animal_name ++ "\" does not exist.</h2>"

theorem generate_of_process_empty
    (data : Option (List (List (String × JValue)))) (q : String)
    (hp : process_animals_data data = .ok []) :
    generate_animals_html_content data q = .ok (notExistShell q) := by
  unfold generate_animals_html_content
  rw [hp]
  rfl

theorem generate_of_process_ok
    (data : Option (List (List (String × JValue)))) (q : String)
    (shaped : List (List (String × String))) (cards : List String)
    (hp : process_animals_data data = .ok shaped)
    (hne : shaped.length ≠ 0)
    (hc : shaped.mapM create_animal_html_card = .ok cards) :
    generate_animals_html_content data q = .ok (String.intercalate "\n\n" cards) := by
  unfold generate_animals_html_content
  rw [hp]
  simp only [bind, Except.bind]
  rw [if_neg hne, hc]
  rfl

/-- C4 (amended): for every non-empty list of well-formed raw records and
every query, `generate_animals_html_content` returns exactly N card
fragments joined by the blank-line separator `"\n\n"`, the i-th fragment
being the card template with the i-th shaped record's `name`, `diet`,
`location` and `type` values spliced in — hence containing at least one
occurrence of each of those values. (The original "exactly one occurrence"
fails when a value collides with the card's fixed markup or with another
value, e.g. when several fields hold the sentinel `N/A`.) -/
theorem generate_animals_html_content_cards
    (l : List (List (String × JValue))) (q : String)
    (hne : l ≠ []) (hwf : ∀ r ∈ l, RawRecordWF r = true) :
    ∃ shaped cards,
      process_animals_data (some l) = .ok shaped ∧
      shaped.length = l.length ∧
      cards.length = l.length ∧
      generate_animals_html_content (some l) q =
        .ok (String.intercalate "\n\n" cards) ∧
      List.Forall₂ (fun d c => create_animal_html_card d = .ok c ∧
        ∀ k v, List.lookup k d = some v → v.data <:+: c.data) shaped cards := by
  obtain ⟨shaped, hp, hfa, hshape⟩ := shaped_of_wf l hwf
  obtain ⟨cards, hc, hfa2⟩ := cards_of_shaped shaped hshape
  have hlen1 : shaped.length = l.length := hfa.length_eq.symm
  have hlen2 : cards.length = l.length := hfa2.length_eq.symm.trans hlen1
  have hne' : shaped.length ≠ 0 := fun h0 =>
    hne (List.length_eq_zero.mp (hlen1.symm.trans h0))
  exact ⟨shaped, cards, hp, hlen1, hlen2,
    generate_of_process_ok (some l) q shaped cards hp hne' hc, hfa2⟩

theorem generate_animals_html_content_cards_witness :
    (([[]] : List (List (String × JValue))) ≠ []) ∧
    (∀ r ∈ ([[]] : List (List (String × JValue))), RawRecordWF r = true) ∧
    (∃ shaped cards,
      process_animals_data (some [[]]) = .ok shaped ∧
      shaped.length = ([[]] : List (List (String × JValue))).length ∧
      cards.length = ([[]] : List (List (String × JValue))).length ∧
      generate_animals_html_content (some [[]]) "fox" =
        .ok (String.intercalate "\n\n" cards) ∧
      List.Forall₂ (fun d c => create_animal_html_card d = .ok c ∧
        ∀ k v, List.lookup k d = some v → v.data <:+: c.data) shaped cards) :=
  ⟨by simp, by simp [RawRecordWF, List.lookup],
    generate_animals_html_content_cards [[]] "fox" (by simp)
      (by simp [RawRecordWF, List.lookup])⟩

/-- C4 counterexample: one raw record with every field absent shapes to the
all-sentinel record, and its single rendered fragment contains the shaped
record's `name` value `N/A` four times, not exactly once — the claim's
"exactly one occurrence of the corresponding shaped record's name, diet,
location, and type values" fails. -/
theorem generate_na_card_counterexample :
    process_animals_data (some [[]]) = .ok
      [[("name", "N/A"), ("diet", "N/A"), ("location", "N/A"), ("type", "N/A")]] ∧
    generate_animals_html_content (some [[]]) "fox" =
      .ok (cardShell "N/A" "N/A" "N/A" "N/A") ∧
    countOcc "N/A" (cardShell "N/A" "N/A" "N/A" "N/A") = 4 ∧
    countOcc "N/A" (cardShell "N/A" "N/A" "N/A" "N/A") ≠ 1 := by
  refine ⟨rfl, ?_, by decide, by decide⟩
  rfl

/-- C6: for a record set that shapes to zero records (`None` or the empty
list) and any query, `generate_animals_html_content` returns the single
heading fragment, which contains the literal phrase `does not exist` and
the title-cased query. -/
theorem generate_empty_not_exist (data : Option (List (List (String × JValue))))
    (q : String) (h : data = none ∨ data = some []) :
    ∃ s, generate_animals_html_content data q = .ok s ∧
      ("does not exist").data <:+: s.data ∧ (pyTitle q).data <:+: s.data := by
  have hp : process_animals_data data = .ok [] := by
    rcases h with rfl | rfl <;> rfl
  refine ⟨notExistShell q, generate_of_process_empty data q hp, ?_, ?_⟩
  · have h1 : ("\" does not exist.</h2>").data <:+: (notExistShell q).data := by
      refine ⟨("<h2 style=\"text-align: center; font-size: 30pt; font-weight: normal;\">" ++
        "The animal \"" ++ pyTitle q).data, [], ?_⟩
      simp [notExistShell, String.data_append, List.append_assoc]
    exact List.IsInfix.trans
      (by decide : ("does not exist").data <:+: ("\" does not exist.</h2>").data) h1
  · refine ⟨("<h2 style=\"text-align: center; font-size: 30pt; font-weight: normal;\">" ++
      "The animal \"").data, ("\" does not exist.</h2>").data, ?_⟩
    simp [notExistShell, String.data_append, List.append_assoc]

theorem generate_empty_not_exist_witness :
    ((none : Option (List (List (String × JValue)))) = none ∨
      (none : Option (List (List (String × JValue)))) = some []) ∧
    (∃ s, generate_animals_html_content none "fox" = .ok s ∧
      ("does not exist").data <:+: s.data ∧ (pyTitle "fox").data <:+: s.data) :=
  ⟨Or.inl rfl, generate_empty_not_exist none "fox" (Or.inl rfl)⟩

theorem generate_ok_of_wf (data : Option (List (List (String × JValue)))) (q : String)
    (hwf : data = none ∨ ∃ l, data = some l ∧ ∀ r ∈ l, RawRecordWF r = true) :
    ∃ c, generate_animals_html_content data q = .ok c := by
  rcases hwf with rfl | ⟨l, rfl, hwf⟩
  · exact ⟨_, generate_of_process_empty none q rfl⟩
  · rcases eq_or_ne l [] with rfl | hne
    · exact ⟨_, generate_of_process_empty (some []) q rfl⟩
    · obtain ⟨shaped, hp, hfa, hshape⟩ := shaped_of_wf l hwf
      obtain ⟨cards, hc, _⟩ := cards_of_shaped shaped hshape
      have hne' : shaped.length ≠ 0 := fun h0 =>
        hne (List.length_eq_zero.mp (hfa.length_eq.trans h0))
      exact ⟨_, generate_of_process_ok (some l) q shaped cards hp hne' hc⟩

/-- C2: `create_final_html` returns the empty string when the template
could not be read (`none`) or does not contain the placeholder token;
otherwise it returns the template with every occurrence of the token
replaced verbatim by the rendered content — the template decomposes into
token-free pieces interleaved with the token, and the result is the same
pieces interleaved with the content. -/
theorem create_final_html_spec (data : Option (List (List (String × JValue))))
    (q : String)
    (hwf : data = none ∨ ∃ l, data = some l ∧ ∀ r ∈ l, RawRecordWF r = true) :
    create_final_html none data q = .ok "" ∧
    (∀ t : String, ¬ HTML_PLACEHOLDER_TEXT.data <:+: t.data →
      create_final_html (some t) data q = .ok "") ∧
    (∀ t : String, HTML_PLACEHOLDER_TEXT.data <:+: t.data →
      ∃ content parts,
        generate_animals_html_content data q = .ok content ∧
        List.intercalate HTML_PLACEHOLDER_TEXT.data parts = t.data ∧
        (∀ p ∈ parts, ¬ HTML_PLACEHOLDER_TEXT.data <:+: p) ∧
        2 ≤ parts.length ∧
        create_final_html (some t) data q =
          .ok ⟨List.intercalate content.data parts⟩) := by
  obtain ⟨content, hcontent⟩ := generate_ok_of_wf data q hwf
  have hne : HTML_PLACEHOLDER_TEXT.data ≠ [] := by decide
  refine ⟨rfl, ?_, ?_⟩
  · intro t hnin
    unfold create_final_html
    rw [hcontent]
    simp only [bind, Except.bind]
    rw [if_neg hnin]
    rfl
  · intro t hinf
    have hrepl : pyReplace t HTML_PLACEHOLDER_TEXT content =
        ⟨List.intercalate content.data
          (pySplitGo HTML_PLACEHOLDER_TEXT.data 0 t.data)⟩ := by
      unfold pyReplace pyReplaceL
      rw [if_neg hne, pyReplaceGo_eq_intercalate _ _ hne]
    refine ⟨content, pySplitGo HTML_PLACEHOLDER_TEXT.data 0 t.data, hcontent,
      pySplitGo_join _ hne t.data, pySplitGo_not_infix _ hne t.data,
      pySplitGo_two_le _ hne t.data hinf, ?_⟩
    unfold create_final_html
    rw [hcontent]
    simp only [bind, Except.bind]
    rw [if_pos hinf]
    show Except.ok (pyReplace t HTML_PLACEHOLDER_TEXT content) = _
    rw [hrepl]

theorem create_final_html_spec_witness :
    HTML_PLACEHOLDER_TEXT.data <:+: ("A__REPLACE_ANIMALS_INFO__B" : String).data ∧
    (∃ content parts,
      generate_animals_html_content none "x" = .ok content ∧
      List.intercalate HTML_PLACEHOLDER_TEXT.data parts =
        ("A__REPLACE_ANIMALS_INFO__B" : String).data ∧
      (∀ p ∈ parts, ¬ HTML_PLACEHOLDER_TEXT.data <:+: p) ∧
      2 ≤ parts.length ∧
      create_final_html (some "A__REPLACE_ANIMALS_INFO__B") none "x" =
        .ok ⟨List.intercalate content.data parts⟩) :=
  ⟨by decide, (create_final_html_spec none "x" (Or.inl rfl)).2.2
    "A__REPLACE_ANIMALS_INFO__B" (by decide)⟩

/-- C3 (amended): `get_input` accepts on the first try every input that is
non-empty after stripping and consists only of allow-listed characters
(the regex's Latin-letter ranges, space, hyphen), returning the stripped
input; it rejects and reprompts every input whose stripped form still
contains a character outside the allow-list. (The original claim — any
disallowed character anywhere in the input causes a reprompt — fails for
inputs whose only disallowed characters are stripped whitespace, see the
counterexample.) -/
theorem get_input_cons (i : String) (rest : List String) :
    get_input (i :: rest) =
      if pyStrip i = "" then get_input rest
      else if (pyStrip i).data.all allowedChar then some (pyStrip i)
      else get_input rest := rfl

theorem get_input_allowlist :
    (∀ i : String, ∀ rest : List String, pyStrip i ≠ "" →
      (∀ c ∈ i.data, allowedChar c = true) →
      get_input (i :: rest) = some (pyStrip i)) ∧
    (∀ i : String, ∀ rest : List String,
      (∃ c ∈ (pyStrip i).data, allowedChar c = false) →
      get_input (i :: rest) = get_input rest) := by
  constructor
  · intro i rest hne hall
    have hallstrip : (pyStrip i).data.all allowedChar = true := by
      rw [List.all_eq_true]
      intro c hc
      exact hall c (mem_pyStripL hc)
    rw [get_input_cons, if_neg hne, if_pos hallstrip]
  · rintro i rest ⟨c, hc, hca⟩
    have hne : pyStrip i ≠ "" := by
      intro h0
      rw [h0] at hc
      simp at hc
    have hnall : ¬ (pyStrip i).data.all allowedChar = true := by
      intro hall
      rw [List.all_eq_true] at hall
      have := hall c hc
      rw [this] at hca
      cases hca
    rw [get_input_cons, if_neg hne, if_neg hnall]

theorem get_input_allowlist_witness :
    pyStrip " red fox " ≠ "" ∧ (∀ c ∈ (" red fox " : String).data, allowedChar c = true) ∧
    get_input [" red fox "] = some (pyStrip " red fox ") :=
  ⟨by decide, by decide, get_input_allowlist.1 " red fox " [] (by decide) (by decide)⟩

/-- C3 counterexample: the input string containing a tab character — a
character outside the allow-list — is accepted on the first try rather
than rejected, because `get_input` strips whitespace before validating. -/
theorem get_input_tab_counterexample :
    (Char.ofNat 9) ∈ ("\tfox" : String).data ∧
    allowedChar (Char.ofNat 9) = false ∧
    get_input ["\tfox"] = some "fox" :=
  ⟨by decide, by decide, by decide⟩

/-- C5: with the API-key configuration value absent, `fetch_api_data`
returns the no-data indicator `None` for every endpoint, query, parameter
dict and network behavior, and the list of issued requests is empty — no
network request is attempted. -/
theorem fetch_api_data_missing_key (endpoint animal_name : String)
    (params : Option (List (String × String)))
    (net : ApiRequest → Except String JValue) :
    fetch_api_data none endpoint animal_name params net = (none, []) := rfl

/-- C9: `save_html_to_file` performs no write and returns `False` on empty
content; on non-empty content it hands exactly that string to the write
and returns `True` when the write succeeds and `False` when it fails,
never raising. -/
theorem save_html_to_file_contract :
    (∀ w : Except String Unit, save_html_to_file "" w = (false, none)) ∧
    (∀ s : String, s ≠ "" → save_html_to_file s (.ok ()) = (true, some s)) ∧
    (∀ s e : String, s ≠ "" → save_html_to_file s (.error e) = (false, some s)) := by
  refine ⟨fun w => rfl, ?_, ?_⟩
  · intro s hs
    unfold save_html_to_file
    rw [if_neg hs]
  · intro s e hs
    unfold save_html_to_file
    rw [if_neg hs]

theorem save_html_to_file_contract_witness :
    ("x" : String) ≠ "" ∧ save_html_to_file "x" (.ok ()) = (true, some "x") :=
  ⟨by decide, save_html_to_file_contract.2.1 "x" (by decide)⟩
